import Mathlib

/-!
Formal model of the quiz application's core logic (question-set preparation
pipeline and exam-session state machine), shallowly embedded from
`src/app/quiz/[slug]/page.tsx` and the type declarations in `src/lib/types`.

Modelling conventions:
* TypeScript optional fields become `Option`.
* Machine-level nondeterminism (`Date.now()`, `Math.random()`,
  `crypto.getRandomValues`) is passed in as explicit oracle functions, indexed
  by the call position, so every definition is a pure function.
* JavaScript string operations are modelled with Lean's `String` operations;
  `Array.prototype.sort()` with the default comparator (lexicographic by code
  unit) is modelled by an insertion sort over a lexicographic comparison of the
  character lists.  On lists of strings every correct sort produces the same
  output, so the choice of sorting algorithm is immaterial.
* Code that can dereference `undefined` (a TypeError at runtime) returns
  `Option`, with `none` marking the crashing branch.
-/

/-- `Question` from `src/lib/types`: one quiz item.  `id` and `explanation`
are optional in the source. -/
structure Question where
  id : Option String
  question : String
  options : List String
  answer : String
  explanation : Option String
deriving DecidableEq

/-- `QuizAnswer` from `src/lib/types`: one recorded response. -/
structure QuizAnswer where
  questionIndex : Nat
  selectedAnswer : String
  isCorrect : Bool
deriving DecidableEq

/-- The component state of `QuizPage`: the six `useState` cells together with
the (constant for the page's lifetime) requested question count. -/
structure QuizState where
  questionCount : Nat
  topicQuestions : List Question
  answers : List QuizAnswer
  isSubmitted : Bool
  timeLeft : Nat
  isTimeUp : Bool
  showSubmitConfirm : Bool
deriving DecidableEq

/-- ASCII lower-casing of one character, as JavaScript's `toLowerCase()`
acts on the ASCII range relevant to this data. -/
def lowerChar (c : Char) : Char :=
  if 'A' ≤ c ∧ c ≤ 'Z' then Char.ofNat (c.toNat + 32) else c

/-- Model of JavaScript `String.prototype.toLowerCase()`. -/
def jsToLower (s : String) : String :=
  String.mk (s.toList.map lowerChar)

/-- Model of JavaScript `String.prototype.trim()`: strip leading and
trailing whitespace. -/
def jsTrim (s : String) : String :=
  String.mk (((s.toList.dropWhile Char.isWhitespace).reverse.dropWhile
    Char.isWhitespace).reverse)

/-- Lexicographic comparison of character lists: the order JavaScript's
default `Array.prototype.sort()` comparator induces on strings (identical to
code-unit order for basic-plane text). -/
def charListLe : List Char → List Char → Bool
  | [], _ => true
  | _ :: _, [] => false
  | c :: cs, d :: ds => if c < d then true else if d < c then false else charListLe cs ds

/-- String comparison used to model the default JavaScript sort order. -/
def strLe (a b : String) : Bool :=
  charListLe a.toList b.toList

/-- Insert a string into an already sorted list (helper of `sortStrings`). -/
def insertSorted (x : String) : List String → List String
  | [] => [x]
  | y :: l => if strLe x y then x :: y :: l else y :: insertSorted x l

/-- Model of `array.sort()` on a list of strings (insertion sort; same output
as any correct sort since equal strings are indistinguishable). -/
def sortStrings : List String → List String
  | [] => []
  | x :: l => insertSorted x (sortStrings l)

/-- The normalized dedup key built in `removeDuplicateQuestions` (line 45):
lower-cased, trimmed question text, `"|"`, then the options trimmed,
lower-cased, sorted and joined with `"|"`.  Independent of `id`. -/
def normalizeKey (q : Question) : String :=
  jsToLower (jsTrim q.question) ++ "|" ++
    String.intercalate "|" (sortStrings (q.options.map fun opt => jsToLower (jsTrim opt)))

/-- The freshly generated id of line 52,
`q_${Date.now()}_${index}_${Math.random().toString(36).substr(2, 9)}`, with
the `Date.now()` and `Math.random()` parts supplied by the oracles `ts` and
`rnd` (indexed by the `forEach` position of the call). -/
def generatedId (ts rnd : Nat → String) (index : Nat) : String :=
  "q_" ++ ts index ++ "_" ++ toString index ++ "_" ++ rnd index

/-- `question.id || fresh`: JavaScript `||` takes the generated id when the
existing one is absent *or the empty string* (falsy). -/
def backfillId (id : Option String) (fresh : String) : String :=
  match id with
  | some s => if s = "" then fresh else s
  | none => fresh

/-- The `forEach` loop of `removeDuplicateQuestions` (lines 43-55): `index`
is the position in the *original* list, `seen` the set of keys already kept
(modelled as a list). -/
def dedupGo (ts rnd : Nat → String) : List Question → Nat → List String → List Question
  | [], _, _ => []
  | q :: rest, index, seen =>
    let key := normalizeKey q
    if key ∈ seen then
      dedupGo ts rnd rest (index + 1) seen
    else
      { q with id := some (backfillId q.id (generatedId ts rnd index)) } ::
        dedupGo ts rnd rest (index + 1) (key :: seen)

/-- `removeDuplicateQuestions` (lines 39-58). -/
def removeDuplicateQuestions (ts rnd : Nat → String) (questions : List Question) : List Question :=
  dedupGo ts rnd questions 0 []

/-- Modelled from the spec's description of deduplication ("keep only the
first occurrence of each key"): the canonical first-occurrence filter on a
list of keys, used to characterize `removeDuplicateQuestions`. -/
def firstOccurrenceKeys : List String → List String
  | [] => []
  | k :: rest => k :: firstOccurrenceKeys (rest.filter fun x => x != k)
termination_by l => l.length
decreasing_by
  simp only [List.length_cons]
  exact Nat.lt_succ_of_le (List.length_filter_le _ _)

/-- Forget the (backfilled) id of a question; used to state that dedup
changes nothing but the id of the questions it keeps. -/
def stripId (q : Question) : Question :=
  { q with id := none }

/-- The destructuring swap of line 82,
`[shuffled[i], shuffled[j]] = [shuffled[j], shuffled[i]]`, as a total list
operation (both indices are in range at every call site). -/
def listSwap (l : List α) (i j : Nat) : List α :=
  match l[i]?, l[j]? with
  | some a, some b => (l.set i b).set j a
  | _, _ => l

/-- The `for` loop of `secureShuffleArray` (lines 80-83): iterates the swap
for `i = n-1, …, 1`; `getRandomInt (i+1)` is modelled as `oracle i % (i+1)`,
exactly the `crypto` branch of line 75 with the raw 32-bit word supplied by
the oracle (the `Math.random` branch also yields an arbitrary in-range
index, which the oracle ranges over). -/
def shuffleGo (oracle : Nat → Nat) : List α → Nat → List α
  | l, 0 => l
  | l, i + 1 => shuffleGo oracle (listSwap l (i + 1) (oracle (i + 1) % (i + 2))) i

/-- `secureShuffleArray` (lines 67-85), Fisher-Yates over a copy of the
input. -/
def secureShuffleArray (oracle : Nat → Nat) (array : List α) : List α :=
  shuffleGo oracle array (array.length - 1)

/-- Lines 163-166 of `loadQuestions`: dedup, shuffle, then take
`min(questionCount, shuffled.length)` items from the front. -/
def prepareQuizQuestions (ts rnd : Nat → String) (oracle : Nat → Nat)
    (raw : List Question) (questionCount : Nat) : List Question :=
  let uniqueQuestions := removeDuplicateQuestions ts rnd raw
  let shuffledQuestions := secureShuffleArray oracle uniqueQuestions
  let availableQuestions := min questionCount shuffledQuestions.length
  shuffledQuestions.take availableQuestions

/-- Lines 169-171: the "final uniqueness" pass,
`quizQuestions.filter((question, index, self) => index === self.findIndex(q => q.id === question.id))`,
keeping an entry only if it is the first with its `id`. -/
def finalQuestions (ts rnd : Nat → String) (oracle : Nat → Nat)
    (raw : List Question) (questionCount : Nat) : List Question :=
  let quizQuestions := prepareQuizQuestions ts rnd oracle raw questionCount
  (quizQuestions.enum.filter fun p =>
      quizQuestions.findIdx (fun q => q.id == p.2.id) == p.1).map Prod.snd

/-- The question list actually installed into the session state by
`loadQuestions`: line 183 sets `finalQuestions` but line 185 immediately
overwrites it with `setTopicQuestions(quizQuestions)`, so the net effect of
the two consecutive state updates is the *unfiltered* sampled slice. -/
def installedQuestions (ts rnd : Nat → String) (oracle : Nat → Nat)
    (raw : List Question) (questionCount : Nat) : List Question :=
  prepareQuizQuestions ts rnd oracle raw questionCount

/-- `loadQuestions` (lines 145-194) over the outcome of the fetch:
`Except.error` covers both a transport failure and the `!response.ok` throw
of line 151; the `catch` block of lines 186-190 installs the empty list. -/
def loadQuestions (ts rnd : Nat → String) (oracle : Nat → Nat)
    (fetchResult : Except String (List Question)) (questionCount : Nat) : List Question :=
  match fetchResult with
  | .error _ => []
  | .ok q => installedQuestions ts rnd oracle q questionCount

/-- Value of a (non-empty) run of decimal digit characters. -/
def digitsValue (ds : List Char) : Nat :=
  ds.foldl (fun acc c => acc * 10 + (c.toNat - 48)) 0

/-- Model of JavaScript `parseInt(s, 10)`: skip leading whitespace, read an
optional sign, then the longest prefix of decimal digits; `none` models the
`NaN` result when no digit follows. -/
def jsParseInt10 (s : String) : Option Int :=
  let parseDigits : List Char → Option Nat := fun cs =>
    let ds := cs.takeWhile Char.isDigit
    if ds.isEmpty then none else some (digitsValue ds)
  match s.toList.dropWhile Char.isWhitespace with
  | '-' :: rest => (parseDigits rest).map fun n => -(n : Int)
  | '+' :: rest => (parseDigits rest).map fun n => (n : Int)
  | rest => (parseDigits rest).map fun n => (n : Int)

/-- Line 98, `parseInt(searchParams.get('count') || '20', 10)`: the string
`'20'` is substituted when the parameter is absent (`get` returns `null`) or
the empty string (both falsy); `none` in the result models `NaN`. -/
def questionCountOf (param : Option String) : Option Int :=
  jsParseInt10 (match param with
    | none => "20"
    | some s => if s = "" then "20" else s)

/-- `calculateTimeLimit` (lines 101-104): 30 seconds per question. -/
def calculateTimeLimit (count : Nat) : Nat :=
  count * 30

/-- One firing of the timer effect (lines 121-136): nothing happens once the
session is submitted or timed out (the interval is not installed); otherwise
the functional update of lines 125-132 runs: at `timeLeft ≤ 1` it clamps to
0 and sets both the time-up and the submitted flag, otherwise it decrements. -/
def tick (s : QuizState) : QuizState :=
  if s.isSubmitted || s.isTimeUp then s
  else if s.timeLeft ≤ 1 then
    { s with timeLeft := 0, isTimeUp := true, isSubmitted := true }
  else
    { s with timeLeft := s.timeLeft - 1 }

/-- `handleAnswer` (lines 219-238).  The early return on `isSubmitted` comes
first; otherwise `topicQuestions[questionIndex]` is read and its `.answer`
field dereferenced with no bounds check — `none` models the TypeError thrown
on an out-of-range index.  The update replaces the existing entry for the
index (last-write-wins) or appends a new one. -/
def handleAnswer (s : QuizState) (questionIndex : Nat) (selectedAnswer : String) :
    Option QuizState :=
  if s.isSubmitted then some s
  else
    match s.topicQuestions[questionIndex]? with
    | none => none
    | some question =>
      let isCorrect := selectedAnswer == question.answer
      let updated :=
        match s.answers.find? (fun a => a.questionIndex == questionIndex) with
        | some _ =>
          s.answers.map fun a =>
            if a.questionIndex == questionIndex then
              { a with selectedAnswer := selectedAnswer, isCorrect := isCorrect }
            else a
        | none => s.answers ++ [⟨questionIndex, selectedAnswer, isCorrect⟩]
      some { s with answers := updated }

/-- `handleSubmitRequest` (lines 245-247). -/
def handleSubmitRequest (s : QuizState) : QuizState :=
  { s with showSubmitConfirm := true }

/-- `handleSubmit` (lines 255-258). -/
def handleSubmit (s : QuizState) : QuizState :=
  { s with showSubmitConfirm := false, isSubmitted := true }

/-- `handleSubmitCancel` (lines 265-267). -/
def handleSubmitCancel (s : QuizState) : QuizState :=
  { s with showSubmitConfirm := false }

/-- `handleRestart` (lines 275-280): clears the answers, the submitted flag
and the time-up flag and resets the timer; it does *not* touch
`showSubmitConfirm`. -/
def handleRestart (s : QuizState) : QuizState :=
  { s with
    answers := []
    isSubmitted := false
    timeLeft := calculateTimeLimit s.questionCount
    isTimeUp := false }

/-- The invariant of the session's answer collection: at most one entry per
`questionIndex`. -/
def answersUnique (l : List QuizAnswer) : Prop :=
  l.Pairwise fun a b => a.questionIndex ≠ b.questionIndex

/-! ### Timer lemmas -/

theorem tick_of_submitted (s : QuizState) (h : s.isSubmitted = true) : tick s = s := by
  simp [tick, h]

theorem tick_iterate_submitted (n : Nat) (s : QuizState) (h : s.isSubmitted = true) :
    tick^[n] s = s := by
  induction n with
  | zero => rfl
  | succ n ih => rw [Function.iterate_succ_apply, tick_of_submitted s h]; exact ih

theorem tick_iterate_active (qc : Nat) (tq : List Question) (ans : List QuizAnswer)
    (sc : Bool) (N : Nat) :
    ∀ tl : Nat, N < tl →
      tick^[N] (⟨qc, tq, ans, false, tl, false, sc⟩ : QuizState)
        = ⟨qc, tq, ans, false, tl - N, false, sc⟩ := by
  induction N with
  | zero => intro tl _; rfl
  | succ N ih =>
    intro tl hN
    rw [Function.iterate_succ_apply]
    have h1 : ¬ tl ≤ 1 := by omega
    have htick : tick (⟨qc, tq, ans, false, tl, false, sc⟩ : QuizState)
        = ⟨qc, tq, ans, false, tl - 1, false, sc⟩ := by
      simp [tick, h1]
    rw [htick, ih (tl - 1) (by omega)]
    have : tl - 1 - N = tl - (N + 1) := by omega
    rw [this]

theorem tick_iterate_timeout (qc : Nat) (tq : List Question) (ans : List QuizAnswer)
    (sc : Bool) (N : Nat) :
    ∀ tl : Nat, 0 < tl → tl ≤ N →
      tick^[N] (⟨qc, tq, ans, false, tl, false, sc⟩ : QuizState)
        = ⟨qc, tq, ans, true, 0, true, sc⟩ := by
  induction N with
  | zero => intro tl h0 hN; omega
  | succ N ih =>
    intro tl h0 hN
    rw [Function.iterate_succ_apply]
    by_cases h1 : tl ≤ 1
    · have htick : tick (⟨qc, tq, ans, false, tl, false, sc⟩ : QuizState)
          = ⟨qc, tq, ans, true, 0, true, sc⟩ := by
        simp [tick, h1]
      rw [htick]
      exact tick_iterate_submitted N _ rfl
    · have htick : tick (⟨qc, tq, ans, false, tl, false, sc⟩ : QuizState)
          = ⟨qc, tq, ans, false, tl - 1, false, sc⟩ := by
        simp [tick, h1]
      rw [htick]
      exact ih (tl - 1) (by omega) (by omega)

/-- C2: In a running session with time budget `T` (not submitted, not timed
out), `N < T` ticks leave remaining time `T - N` with the submitted and
time-up flags still clear (so a session that starts `Active` stays `Active`:
`showSubmitConfirm` is untouched by the timer), while `T ≤ N` ticks clamp
the counter at zero, set the time-up flag and force the submitted flag —
regardless of `showSubmitConfirm`, i.e. also from `ConfirmPending`. -/
theorem tick_time_budget (s : QuizState) (T N : Nat)
    (hs : s.isSubmitted = false) (ht : s.isTimeUp = false) (hT : s.timeLeft = T) :
    (N < T →
      (tick^[N] s).timeLeft = T - N ∧ (tick^[N] s).isSubmitted = false ∧
      (tick^[N] s).isTimeUp = false ∧
      (tick^[N] s).showSubmitConfirm = s.showSubmitConfirm) ∧
    (0 < T → T ≤ N →
      (tick^[N] s).timeLeft = 0 ∧ (tick^[N] s).isTimeUp = true ∧
      (tick^[N] s).isSubmitted = true) := by
  obtain ⟨qc, tq, ans, sub, tl, tu, sc⟩ := s
  simp only at hs ht hT
  subst hs ht hT
  constructor
  · intro hN
    rw [tick_iterate_active qc tq ans sc N _ hN]
    exact ⟨rfl, rfl, rfl, rfl⟩
  · intro h0 hN
    rw [tick_iterate_timeout qc tq ans sc N _ h0 hN]
    exact ⟨rfl, rfl, rfl⟩

theorem tick_time_budget_witness :
    ((tick^[1] (⟨2, [], [], false, 2, false, false⟩ : QuizState)).timeLeft = 1 ∧
     (tick^[1] (⟨2, [], [], false, 2, false, false⟩ : QuizState)).isSubmitted = false) ∧
    ((tick^[3] (⟨2, [], [], false, 2, false, true⟩ : QuizState)).timeLeft = 0 ∧
     (tick^[3] (⟨2, [], [], false, 2, false, true⟩ : QuizState)).isTimeUp = true ∧
     (tick^[3] (⟨2, [], [], false, 2, false, true⟩ : QuizState)).isSubmitted = true) := by
  constructor
  · have h := (tick_time_budget ⟨2, [], [], false, 2, false, false⟩ 2 1 rfl rfl rfl).1
      (by omega)
    exact ⟨h.1, h.2.1⟩
  · exact (tick_time_budget ⟨2, [], [], false, 2, false, true⟩ 2 3 rfl rfl rfl).2
      (by omega) (by omega)

/-- C3 (counterexample): a session that reached `Submitted` through the
time-up path while the confirmation popup was open still has
`showSubmitConfirm = true` after `handleRestart` — the claim's
"confirm-pending flag cleared" is false on the code, which never touches
that flag in `handleRestart`. -/
theorem restart_counterexample :
    (⟨1, [], [], true, 0, true, true⟩ : QuizState).isSubmitted = true ∧
    ¬ ((handleRestart ⟨1, [], [], true, 0, true, true⟩).showSubmitConfirm = false) := by
  decide

/-- C3 (amended): `handleRestart` from a `Submitted` state clears the
answers, resets the timer to `questionCount × 30`, clears the time-up flag,
returns the submitted flag to `false` (state `Active` when the confirm flag
is clear) and keeps the prepared question sequence unchanged — but it leaves
`showSubmitConfirm` exactly as it was rather than clearing it. -/
theorem restart_behavior (s : QuizState) (_h : s.isSubmitted = true) :
    (handleRestart s).answers = [] ∧
    (handleRestart s).timeLeft = s.questionCount * 30 ∧
    (handleRestart s).isTimeUp = false ∧
    (handleRestart s).isSubmitted = false ∧
    (handleRestart s).topicQuestions = s.topicQuestions ∧
    (handleRestart s).showSubmitConfirm = s.showSubmitConfirm := by
  refine ⟨rfl, rfl, rfl, rfl, rfl, rfl⟩

theorem restart_behavior_witness :
    (handleRestart ⟨2, [], [⟨0, "a", true⟩], true, 0, true, false⟩).answers = [] ∧
    (handleRestart ⟨2, [], [⟨0, "a", true⟩], true, 0, true, false⟩).timeLeft = 2 * 30 ∧
    (handleRestart ⟨2, [], [⟨0, "a", true⟩], true, 0, true, false⟩).isTimeUp = false ∧
    (handleRestart ⟨2, [], [⟨0, "a", true⟩], true, 0, true, false⟩).isSubmitted = false ∧
    (handleRestart ⟨2, [], [⟨0, "a", true⟩], true, 0, true, false⟩).topicQuestions = [] ∧
    (handleRestart ⟨2, [], [⟨0, "a", true⟩], true, 0, true, false⟩).showSubmitConfirm = false :=
  restart_behavior ⟨2, [], [⟨0, "a", true⟩], true, 0, true, false⟩ rfl

/-! ### Answer-handling lemmas -/

/-- C4: `handleAnswer` is a no-op when the session is submitted; otherwise,
for an in-range index, it upserts: the collection keeps at most one entry
per `questionIndex`, the entry for the answered index carries the new
selection (last-write-wins) with `isCorrect = (selectedAnswer == answer)` —
case-sensitive equality with no trimming — and entries for other indices
are untouched. -/
theorem answer_upsert (s : QuizState) (i : Nat) (opt : String) :
    (s.isSubmitted = true → handleAnswer s i opt = some s) ∧
    (∀ q, s.isSubmitted = false → s.topicQuestions[i]? = some q →
      answersUnique s.answers →
      ∃ s', handleAnswer s i opt = some s' ∧
        answersUnique s'.answers ∧
        s'.answers.find? (fun a => a.questionIndex == i) = some ⟨i, opt, opt == q.answer⟩ ∧
        (∀ a ∈ s'.answers, a.questionIndex ≠ i → a ∈ s.answers) ∧
        ((opt == q.answer) = true ↔ opt = q.answer) ∧
        s'.topicQuestions = s.topicQuestions ∧ s'.isSubmitted = false) := by
  constructor
  · intro h
    simp [handleAnswer, h]
  · intro q hs hq hu
    cases hf : s.answers.find? (fun a => a.questionIndex == i) with
    | none =>
      have hall : ∀ a ∈ s.answers, a.questionIndex ≠ i := by
        intro a ha
        have := List.find?_eq_none.mp hf a ha
        simpa using this
      refine ⟨{ s with answers := s.answers ++ [⟨i, opt, opt == q.answer⟩] },
        ?_, ?_, ?_, ?_, by simp, rfl, hs⟩
      · simp [handleAnswer, hs, hq, hf]
      · unfold answersUnique
        rw [List.pairwise_append]
        refine ⟨hu, by simp, ?_⟩
        intro a ha b hb
        simp only [List.mem_singleton] at hb
        subst hb
        simpa using hall a ha
      · rw [List.find?_append, hf]
        simp
      · intro a ha _
        simp only [List.mem_append, List.mem_singleton] at ha
        rcases ha with ha | ha
        · exact ha
        · subst ha
          simp at *
    | some a0 =>
      have hqi : ∀ a : QuizAnswer,
          ((if a.questionIndex == i then
              { a with selectedAnswer := opt, isCorrect := opt == q.answer }
            else a) : QuizAnswer).questionIndex = a.questionIndex := by
        intro a
        by_cases h : a.questionIndex == i <;> simp [h]
      refine ⟨{ s with answers := s.answers.map fun a =>
          if a.questionIndex == i then
            { a with selectedAnswer := opt, isCorrect := opt == q.answer }
          else a }, ?_, ?_, ?_, ?_, by simp, rfl, hs⟩
      · simp [handleAnswer, hs, hq, hf]
      · exact hu.map _ fun a b hab => by rw [hqi, hqi]; exact hab
      · rw [List.find?_map]
        have hcomp : ((fun a : QuizAnswer => a.questionIndex == i) ∘
            (fun a : QuizAnswer =>
              if a.questionIndex == i then
                { a with selectedAnswer := opt, isCorrect := opt == q.answer }
              else a)) = fun a : QuizAnswer => a.questionIndex == i := by
          funext a
          by_cases h : a.questionIndex == i <;> simp [Function.comp, h]
        rw [hcomp, hf]
        have ha0 := List.find?_some hf
        have ha0' : a0.questionIndex = i := by simpa using ha0
        simp [ha0, ha0']
      · intro a ha hne
        simp only [List.mem_map] at ha
        obtain ⟨b, hb, rfl⟩ := ha
        by_cases hbi : b.questionIndex == i
        · exfalso
          apply hne
          rw [hqi b]
          simpa using hbi
        · simpa [hbi] using hb

theorem answer_upsert_witness :
    ∃ s', handleAnswer ⟨1, [⟨some "i", "Q", ["a", "b"], "a", none⟩],
        [⟨0, "b", false⟩], false, 30, false, false⟩ 0 "a" = some s' ∧
      answersUnique s'.answers ∧
      s'.answers.find? (fun a => a.questionIndex == 0) = some ⟨0, "a", true⟩ ∧
      (∀ a ∈ s'.answers, a.questionIndex ≠ 0 → a ∈ [(⟨0, "b", false⟩ : QuizAnswer)]) ∧
      ((("a" : String) == "a") = true ↔ ("a" : String) = "a") ∧
      s'.topicQuestions = [⟨some "i", "Q", ["a", "b"], "a", none⟩] ∧
      s'.isSubmitted = false :=
  (answer_upsert ⟨1, [⟨some "i", "Q", ["a", "b"], "a", none⟩],
      [⟨0, "b", false⟩], false, 30, false, false⟩ 0 "a").2
    ⟨some "i", "Q", ["a", "b"], "a", none⟩ rfl rfl (by unfold answersUnique; decide)

/-- C10: `handleAnswer` dereferences `topicQuestions[index].answer` with no
bounds check, after the submitted early-return; in the total embedding the
crashing branch (`none`) is reached exactly when the session is not
submitted and the index is out of range, i.e. the operation is safe exactly
under the precondition `index < length` (or the submitted no-op). -/
theorem answer_crash_iff (s : QuizState) (i : Nat) (opt : String) :
    handleAnswer s i opt = none ↔
      s.isSubmitted = false ∧ s.topicQuestions.length ≤ i := by
  by_cases hs : s.isSubmitted
  · simp [handleAnswer, hs]
  · have hs' : s.isSubmitted = false := by simpa using hs
    cases hq : s.topicQuestions[i]? with
    | none =>
      have hlen : s.topicQuestions.length ≤ i := List.getElem?_eq_none_iff.mp hq
      simp [handleAnswer, hs', hq, hlen]
    | some q =>
      have hlt : i < s.topicQuestions.length := by
        by_contra hcon
        rw [List.getElem?_eq_none_iff.mpr (by omega)] at hq
        exact Option.noConfusion hq
      simp only [handleAnswer, hs', hq]
      constructor
      · intro h
        simp at h
      · intro h
        omega

/-! ### Shuffle lemmas -/

theorem cons_set_perm {α : Type} (t : List α) :
    ∀ (k : Nat) (a b : α), t[k]? = some b → (b :: t.set k a).Perm (a :: t) := by
  induction t with
  | nil =>
    intro k a b h
    simp at h
  | cons c t' ih =>
    intro k a b h
    cases k with
    | zero =>
      simp only [List.getElem?_cons_zero, Option.some.injEq] at h
      subst h
      exact List.Perm.swap a c t'
    | succ m =>
      simp only [List.getElem?_cons_succ] at h
      have h1 : (b :: t'.set m a).Perm (a :: t') := ih m a b h
      exact ((List.Perm.swap c b _).trans (h1.cons c)).trans (List.Perm.swap a c t')

theorem set_set_perm {α : Type} (l : List α) :
    ∀ (i j : Nat) (a b : α), l[i]? = some a → l[j]? = some b →
      ((l.set i b).set j a).Perm l := by
  induction l with
  | nil =>
    intro i j a b hi _
    simp at hi
  | cons c t ih =>
    intro i j a b hi hj
    cases i with
    | zero =>
      simp only [List.getElem?_cons_zero, Option.some.injEq] at hi
      subst hi
      cases j with
      | zero =>
        simp only [List.getElem?_cons_zero, Option.some.injEq] at hj
        subst hj
        simp [List.set]
      | succ m =>
        simp only [List.getElem?_cons_succ] at hj
        exact cons_set_perm t m c b hj
    | succ n =>
      simp only [List.getElem?_cons_succ] at hi
      cases j with
      | zero =>
        simp only [List.getElem?_cons_zero, Option.some.injEq] at hj
        subst hj
        exact cons_set_perm t n c a hi
      | succ m =>
        simp only [List.getElem?_cons_succ] at hj
        exact (ih n m a b hi hj).cons c

theorem listSwap_perm {α : Type} (l : List α) (i j : Nat) : (listSwap l i j).Perm l := by
  unfold listSwap
  cases hi : l[i]? with
  | none => exact List.Perm.refl l
  | some a =>
    cases hj : l[j]? with
    | none => exact List.Perm.refl l
    | some b => exact set_set_perm l i j a b hi hj

theorem shuffleGo_perm {α : Type} (oracle : Nat → Nat) :
    ∀ (n : Nat) (l : List α), (shuffleGo oracle l n).Perm l := by
  intro n
  induction n with
  | zero => intro l; exact List.Perm.refl l
  | succ n ih =>
    intro l
    exact (ih _).trans (listSwap_perm l (n + 1) (oracle (n + 1) % (n + 2)))

theorem secureShuffleArray_perm {α : Type} (oracle : Nat → Nat) (l : List α) :
    (secureShuffleArray oracle l).Perm l :=
  shuffleGo_perm oracle (l.length - 1) l

/-- C6: `secureShuffleArray` is a permutation: for every input list —
including sizes 0 and 1 — and every randomness source (the oracle supplies
the raw word of each `getRandomInt` call, whose reduction mod `i + 1` ranges
over exactly the in-range indices), the output is a reordering of the same
elements as the input, equal as multisets. -/
theorem shuffle_is_permutation {α : Type} (oracle : Nat → Nat) (l : List α) :
    (secureShuffleArray oracle l).Perm l ∧
      (↑(secureShuffleArray oracle l) : Multiset α) = ↑l := by
  refine ⟨secureShuffleArray_perm oracle l, ?_⟩
  exact Multiset.coe_eq_coe.mpr (secureShuffleArray_perm oracle l)

/-- C7: the sampled slice has exactly `min requestedCount uniqueCount`
items, and when the requested count is at least the number of unique
questions the slice is all of them (as reordered by the shuffle). -/
theorem sampling_min (ts rnd : Nat → String) (oracle : Nat → Nat)
    (raw : List Question) (count : Nat) :
    (prepareQuizQuestions ts rnd oracle raw count).length
        = min count (removeDuplicateQuestions ts rnd raw).length ∧
    ((removeDuplicateQuestions ts rnd raw).length ≤ count →
      (prepareQuizQuestions ts rnd oracle raw count).Perm
        (removeDuplicateQuestions ts rnd raw)) := by
  have hlen : (secureShuffleArray oracle (removeDuplicateQuestions ts rnd raw)).length
      = (removeDuplicateQuestions ts rnd raw).length :=
    (secureShuffleArray_perm oracle _).length_eq
  constructor
  · simp only [prepareQuizQuestions, List.length_take, hlen]
    omega
  · intro h
    have htake : (secureShuffleArray oracle (removeDuplicateQuestions ts rnd raw)).take
        (min count (secureShuffleArray oracle (removeDuplicateQuestions ts rnd raw)).length)
        = secureShuffleArray oracle (removeDuplicateQuestions ts rnd raw) :=
      List.take_of_length_le (by omega)
    simp only [prepareQuizQuestions, htake]
    exact secureShuffleArray_perm oracle _

theorem sampling_min_witness :
    (prepareQuizQuestions (fun _ => "t") (fun _ => "r") (fun _ => 0)
        [⟨some "i", "a", ["x"], "x", none⟩] 3).Perm
      (removeDuplicateQuestions (fun _ => "t") (fun _ => "r")
        [⟨some "i", "a", ["x"], "x", none⟩]) :=
  (sampling_min (fun _ => "t") (fun _ => "r") (fun _ => 0)
      [⟨some "i", "a", ["x"], "x", none⟩] 3).2 (by decide)

/-! ### Deduplication lemmas -/

theorem normalizeKey_setId (q : Question) (x : Option String) :
    normalizeKey { q with id := x } = normalizeKey q := rfl

theorem dedupGo_length_le (ts rnd : Nat → String) (l : List Question) :
    ∀ (seen : List String) (i : Nat), (dedupGo ts rnd l i seen).length ≤ l.length := by
  induction l with
  | nil => intro seen i; simp [dedupGo]
  | cons q rest ih =>
    intro seen i
    by_cases hk : normalizeKey q ∈ seen
    · simp only [dedupGo, if_pos hk, List.length_cons]
      exact (ih seen (i + 1)).trans (Nat.le_succ _)
    · simp only [dedupGo, if_neg hk, List.length_cons]
      exact Nat.succ_le_succ (ih (normalizeKey q :: seen) (i + 1))

theorem dedupGo_keys (ts rnd : Nat → String) (l : List Question) :
    ∀ (seen : List String) (i : Nat),
      (dedupGo ts rnd l i seen).map normalizeKey
        = firstOccurrenceKeys ((l.map normalizeKey).filter fun k => decide (k ∉ seen)) := by
  induction l with
  | nil => intro seen i; simp [dedupGo, firstOccurrenceKeys]
  | cons q rest ih =>
    intro seen i
    by_cases hk : normalizeKey q ∈ seen
    · have hd : (decide (normalizeKey q ∉ seen)) = false := by simp [hk]
      simp only [dedupGo, if_pos hk, List.map_cons, List.filter_cons, hd, Bool.false_eq_true,
        if_false]
      exact ih seen (i + 1)
    · have hd : (decide (normalizeKey q ∉ seen)) = true := by simp [hk]
      simp only [dedupGo, if_neg hk, List.map_cons, List.filter_cons, hd, if_true,
        normalizeKey_setId]
      rw [ih (normalizeKey q :: seen) (i + 1)]
      simp only [firstOccurrenceKeys]
      congr 1
      rw [List.filter_filter]
      congr 1
      apply List.filter_congr
      intro a _
      by_cases h1 : a = normalizeKey q <;> by_cases h2 : a ∈ seen <;>
        simp [h1, h2, List.mem_cons]

theorem dedupGo_keys_nodup (ts rnd : Nat → String) (l : List Question) :
    ∀ (seen : List String) (i : Nat),
      ((dedupGo ts rnd l i seen).map normalizeKey).Nodup ∧
      ∀ k ∈ (dedupGo ts rnd l i seen).map normalizeKey, k ∉ seen := by
  induction l with
  | nil => intro seen i; simp [dedupGo]
  | cons q rest ih =>
    intro seen i
    by_cases hk : normalizeKey q ∈ seen
    · simp only [dedupGo, if_pos hk]
      exact ih seen (i + 1)
    · simp only [dedupGo, if_neg hk, List.map_cons, normalizeKey_setId]
      obtain ⟨hnd, hmem⟩ := ih (normalizeKey q :: seen) (i + 1)
      constructor
      · rw [List.nodup_cons]
        exact ⟨fun hin => (hmem _ hin) (List.mem_cons_self _ _), hnd⟩
      · intro k hkmem
        rw [List.mem_cons] at hkmem
        rcases hkmem with rfl | hkmem
        · exact hk
        · exact fun hcon => (hmem k hkmem) (List.mem_cons_of_mem _ hcon)

theorem dedupGo_stripId_sublist (ts rnd : Nat → String) (l : List Question) :
    ∀ (seen : List String) (i : Nat),
      ((dedupGo ts rnd l i seen).map stripId).Sublist (l.map stripId) := by
  induction l with
  | nil => intro seen i; simp [dedupGo]
  | cons q rest ih =>
    intro seen i
    by_cases hk : normalizeKey q ∈ seen
    · simp only [dedupGo, if_pos hk, List.map_cons]
      exact (ih seen (i + 1)).cons _
    · simp only [dedupGo, if_neg hk, List.map_cons]
      have hstrip : stripId { q with id := some (backfillId q.id (generatedId ts rnd i)) }
          = stripId q := rfl
      rw [hstrip]
      exact (ih (normalizeKey q :: seen) (i + 1)).cons₂ _

theorem generatedId_ne_empty (ts rnd : Nat → String) (i : Nat) :
    generatedId ts rnd i ≠ "" := by
  intro h
  have hlen := congrArg String.length h
  rw [show ("" : String).length = 0 from rfl] at hlen
  simp only [generatedId, String.length_append] at hlen
  rw [show ("q_" : String).length = 2 from rfl] at hlen
  omega

theorem backfillId_ne_empty (id : Option String) (fresh : String) (hf : fresh ≠ "") :
    backfillId id fresh ≠ "" := by
  unfold backfillId
  cases id with
  | none => exact hf
  | some s =>
    by_cases hs : s = ""
    · simp [hs]
      exact hf
    · simp [hs]

theorem dedupGo_ids (ts rnd : Nat → String) (l : List Question) :
    ∀ (seen : List String) (i : Nat) (q' : Question), q' ∈ dedupGo ts rnd l i seen →
      ∃ s, q'.id = some s ∧ s ≠ "" := by
  induction l with
  | nil => intro seen i q' h; simp [dedupGo] at h
  | cons q rest ih =>
    intro seen i q' h
    by_cases hk : normalizeKey q ∈ seen
    · simp only [dedupGo, if_pos hk] at h
      exact ih seen (i + 1) q' h
    · simp only [dedupGo, if_neg hk] at h
      rw [List.mem_cons] at h
      rcases h with rfl | h
      · exact ⟨backfillId q.id (generatedId ts rnd i), rfl,
          backfillId_ne_empty _ _ (generatedId_ne_empty ts rnd i)⟩
      · exact ih (normalizeKey q :: seen) (i + 1) q' h

/-- C5 (amended): deduplication keeps exactly the first occurrence of each
normalized key — the output's key sequence is the first-occurrence filter of
the input's key sequence — so the output size is at most the input size, no
two output questions share a normalized key, first-seen order is preserved
(the output, ids aside, is a sublist of the input), and every output
question carries a non-empty `id`.  Within-call uniqueness of the ids does
*not* hold in general (see the counterexample): pre-existing ids pass
through unchanged and may collide. -/
theorem dedup_spec (ts rnd : Nat → String) (l : List Question) :
    (removeDuplicateQuestions ts rnd l).length ≤ l.length ∧
    ((removeDuplicateQuestions ts rnd l).map normalizeKey).Nodup ∧
    (removeDuplicateQuestions ts rnd l).map normalizeKey
      = firstOccurrenceKeys (l.map normalizeKey) ∧
    ((removeDuplicateQuestions ts rnd l).map stripId).Sublist (l.map stripId) ∧
    ∀ q ∈ removeDuplicateQuestions ts rnd l, ∃ s, q.id = some s ∧ s ≠ "" := by
  refine ⟨dedupGo_length_le ts rnd l [] 0, (dedupGo_keys_nodup ts rnd l [] 0).1, ?_,
    dedupGo_stripId_sublist ts rnd l [] 0, dedupGo_ids ts rnd l [] 0⟩
  rw [show removeDuplicateQuestions ts rnd l = dedupGo ts rnd l 0 [] from rfl,
    dedupGo_keys ts rnd l [] 0]
  congr 1
  apply List.filter_eq_self.mpr
  intro a _
  simp

theorem dedup_spec_witness :
    ∃ q, q ∈ removeDuplicateQuestions (fun _ => "t") (fun _ => "r")
        [⟨none, "a", ["x"], "x", none⟩] ∧
      ∃ s, q.id = some s ∧ s ≠ "" := by
  refine ⟨⟨some "q_t_0_r", "a", ["x"], "x", none⟩, by decide, ?_⟩
  exact (dedup_spec (fun _ => "t") (fun _ => "r") [⟨none, "a", ["x"], "x", none⟩]).2.2.2.2
    ⟨some "q_t_0_r", "a", ["x"], "x", none⟩ (by decide)

/-- C5 (counterexample): two questions with different texts but the same
pre-existing id `"dup"` both survive deduplication unchanged, so the output
ids are not unique within the call. -/
theorem dedup_counterexample :
    (removeDuplicateQuestions (fun _ => "t") (fun _ => "r")
        [⟨some "dup", "a", ["x", "y"], "x", none⟩,
         ⟨some "dup", "b", ["x", "y"], "x", none⟩]).map Question.id
      = [some "dup", some "dup"] ∧
    ¬ ((removeDuplicateQuestions (fun _ => "t") (fun _ => "r")
        [⟨some "dup", "a", ["x", "y"], "x", none⟩,
         ⟨some "dup", "b", ["x", "y"], "x", none⟩]).map Question.id).Nodup := by
  constructor
  · decide
  · decide

/-! ### Load pipeline and count parameter -/

/-- C1: evaluation at a failing input.  With two distinct-text questions
sharing the pre-existing id `"dup"` and requested count 2, the list the
session is initialized with — `quizQuestions`, because the second
`setTopicQuestions` call on line 185 overwrites the `finalQuestions` set on
line 183 — contains two questions with equal `id`, while the re-filtered
`finalQuestions` value that line 183 had installed (and the claim describes)
would have contained only one. -/
theorem installed_duplicate_ids :
    (installedQuestions (fun _ => "t") (fun _ => "r") (fun _ => 0)
        [⟨some "dup", "a", ["x", "y"], "x", none⟩,
         ⟨some "dup", "b", ["x", "y"], "x", none⟩] 2).map Question.id
      = [some "dup", some "dup"] ∧
    ¬ ((installedQuestions (fun _ => "t") (fun _ => "r") (fun _ => 0)
        [⟨some "dup", "a", ["x", "y"], "x", none⟩,
         ⟨some "dup", "b", ["x", "y"], "x", none⟩] 2).map Question.id).Nodup ∧
    (finalQuestions (fun _ => "t") (fun _ => "r") (fun _ => 0)
        [⟨some "dup", "a", ["x", "y"], "x", none⟩,
         ⟨some "dup", "b", ["x", "y"], "x", none⟩] 2).map Question.id
      = [some "dup"] := by
  refine ⟨by decide, by decide, by decide⟩

/-- C9: on any fetch failure (transport error or non-2xx response, both
reaching the `catch` block) the installed question set is the empty list —
the failure is absorbed locally, not propagated. -/
theorem fetch_failure_empty (ts rnd : Nat → String) (oracle : Nat → Nat)
    (e : String) (count : Nat) :
    loadQuestions ts rnd oracle (Except.error e) count = [] :=
  rfl

/-- C8 (counterexample): with `?count=abc` the session's count is
`parseInt("abc", 10) = NaN` (modelled `none`), not the claimed default 20;
and `?count=-5` yields `-5`, which is not a positive integer. -/
theorem count_param_counterexample :
    questionCountOf (some "abc") = none ∧
    questionCountOf (some "abc") ≠ some 20 ∧
    questionCountOf (some "-5") = some (-5) := by
  refine ⟨by decide, by decide, by decide⟩

/-- C8 (amended): the count defaults to 20 exactly when the `count`
parameter is absent or the empty string; any other value is passed to
`parseInt(·, 10)` unchanged, so an unparsable string yields `NaN` (no
numeric count) rather than 20, and zero or negative values are kept as-is. -/
theorem count_param_amended :
    questionCountOf none = some 20 ∧
    questionCountOf (some "") = some 20 ∧
    (∀ s : String, s ≠ "" → questionCountOf (some s) = jsParseInt10 s) ∧
    questionCountOf (some "20") = some 20 ∧
    questionCountOf (some "abc") = none ∧
    questionCountOf (some "0") = some 0 ∧
    questionCountOf (some "-5") = some (-5) := by
  refine ⟨by decide, by decide, ?_, by decide, by decide, by decide, by decide⟩
  intro s hs
  simp [questionCountOf, hs]

theorem count_param_amended_witness :
    questionCountOf (some "x7") = jsParseInt10 "x7" :=
  count_param_amended.2.2.1 "x7" (by decide)
